import Mathlib

/-!
Shallow embedding of the ring buffer engine of
`src/middlewares/ringbuff/src/ringbuff/ringbuff.c` (v1.3.1), together with
proofs of the specification claims about it.

Modelling conventions:
* a C pointer to a `ringbuff_t` handle is `Option ringbuff_t` (`none` = NULL);
* the storage region behind `buff->buff` is carried inside the structure as
  `Option (List Nat)` of byte values (`none` = NULL pointer);
* the event callback is modelled by a flag `evt_fn : Bool` (installed or not);
  every mutating operation returns, next to its C return value, the list of
  callback invocations `(event type, byte count)` it performed;
* `size_t` values are `Nat`.  All subtractions performed by the C code are
  guarded (the source comments note they cannot underflow on valid states);
  the claims are settled on states whose indices are in range, where `Nat`
  subtraction agrees with `size_t` subtraction;
* the compile-time switch `RINGBUFF_USE_MAGIC` is an explicit parameter `um`.
-/

/-- Event types passed to the callback (RINGBUFF_EVT_READ / WRITE / RESET). -/
inductive ringbuff_evt_type where
  | RINGBUFF_EVT_READ
  | RINGBUFF_EVT_WRITE
  | RINGBUFF_EVT_RESET
deriving DecidableEq, Repr

export ringbuff_evt_type (RINGBUFF_EVT_READ RINGBUFF_EVT_WRITE RINGBUFF_EVT_RESET)

/-- Modelled from the spec: the `ringbuff_t` control structure is declared in
`ringbuff.h`, which is not under `src/`; its fields are reconstructed from the
spec's data model (storage region, capacity, write and read indices, ready
flag via storage/size, optional notify hook) and from every use in
`ringbuff.c` (`buff`, `size`, `r`, `w`, `evt_fn`, `magic1`, `magic2`). -/
structure ringbuff_t where
  buff : Option (List Nat)
  size : Nat
  r : Nat
  w : Nat
  evt_fn : Bool
  magic1 : Nat
  magic2 : Nat
deriving DecidableEq, Repr

/-- The magic constant `0xDEADBEEF` written into `magic1`. -/
def RINGBUFF_MAGIC1 : Nat := 0xDEADBEEF

/-- The magic constant `~0xDEADBEEF` (bitwise complement on `uint32_t`)
written into `magic2`. -/
def RINGBUFF_MAGIC2 : Nat := 0x21524110

/-- `BUF_IS_VALID(b)`: handle non-NULL, storage non-NULL, size positive and,
when `RINGBUFF_USE_MAGIC` (`um`) is set, both magic values correct. -/
def BUF_IS_VALID (um : Bool) (b : Option ringbuff_t) : Bool :=
  match b with
  | none => false
  | some bb =>
      (if um then
        decide (bb.magic1 = RINGBUFF_MAGIC1) && decide (bb.magic2 = RINGBUFF_MAGIC2)
      else true)
      && bb.buff.isSome && decide (0 < bb.size)

/-- `BUF_MIN(x, y)`. -/
def BUF_MIN (x y : Nat) : Nat := if x < y then x else y

/-- `BUF_SEND_EVT(b, type, bp)`: the list of callback invocations performed
(one when a callback is installed, none otherwise). -/
def BUF_SEND_EVT (b : ringbuff_t) (t : ringbuff_evt_type) (bp : Nat) :
    List (ringbuff_evt_type × Nat) :=
  if b.evt_fn then [(t, bp)] else []

/-- Model of `BUF_MEMCPY(d, &buf[pos], n)`: the `n` bytes of the storage
region starting at offset `pos`. -/
def memread (buf : List Nat) (pos n : Nat) : List Nat :=
  (List.range n).map fun j => buf.getD (pos + j) 0

/-- Model of `BUF_MEMCPY(&dst[pos], src, n)`: overwrite the region
`[pos, pos + n)` of `dst` with the first `n` bytes of `src`. -/
def memwrite (dst : List Nat) (pos : Nat) (src : List Nat) (n : Nat) : List Nat :=
  (List.range dst.length).map fun i =>
    if pos ≤ i ∧ i < pos + n then src.getD (i - pos) 0 else dst.getD i 0

/-- `ringbuff_init`: zero the whole structure, then set `size` and `buff`
(and the magic values when compiled in).  Returns `1` on success, `0` when
the handle, the data region or the size is absent/zero. -/
def ringbuff_init (um : Bool) (buff : Option ringbuff_t)
    (buffdata : Option (List Nat)) (size : Nat) : Nat × Option ringbuff_t :=
  match buff with
  | none => (0, none)
  | some b =>
      if buffdata.isNone ∨ size = 0 then (0, some b)
      else
        (1, some { buff := buffdata, size := size, r := 0, w := 0,
                   evt_fn := false,
                   magic1 := if um then RINGBUFF_MAGIC1 else 0,
                   magic2 := if um then RINGBUFF_MAGIC2 else 0 })

/-- `ringbuff_is_ready`. -/
def ringbuff_is_ready (um : Bool) (buff : Option ringbuff_t) : Bool :=
  BUF_IS_VALID um buff

/-- `ringbuff_free`: detach the storage region on a valid buffer. -/
def ringbuff_free (um : Bool) (buff : Option ringbuff_t) : Option ringbuff_t :=
  match buff with
  | none => none
  | some b =>
      if BUF_IS_VALID um (some b) then some { b with buff := none } else some b

/-- `ringbuff_set_evt_fn`: install (`fn = true`) or clear (`fn = false`) the
event callback on a valid buffer. -/
def ringbuff_set_evt_fn (um : Bool) (buff : Option ringbuff_t) (fn : Bool) :
    Option ringbuff_t :=
  match buff with
  | none => none
  | some b =>
      if BUF_IS_VALID um (some b) then some { b with evt_fn := fn } else some b

/-- `ringbuff_get_free`: free bytes available for write. -/
def ringbuff_get_free (um : Bool) (buff : Option ringbuff_t) : Nat :=
  match buff with
  | none => 0
  | some b =>
      if BUF_IS_VALID um (some b) then
        (if b.w = b.r then b.size
         else if b.r > b.w then b.r - b.w
         else b.size - (b.w - b.r)) - 1
      else 0

/-- `ringbuff_get_full`: bytes currently stored and ready to be read. -/
def ringbuff_get_full (um : Bool) (buff : Option ringbuff_t) : Nat :=
  match buff with
  | none => 0
  | some b =>
      if BUF_IS_VALID um (some b) then
        if b.w = b.r then 0
        else if b.w > b.r then b.w - b.r
        else b.size - (b.r - b.w)
      else 0

/-- Result of a mutating operation that copies no data out:
C return value, buffer state after the call, callback invocations. -/
structure ringbuff_op_result where
  ret : Nat
  buf : Option ringbuff_t
  evts : List (ringbuff_evt_type × Nat)
deriving DecidableEq, Repr

/-- Result of an operation that copies bytes out (`read` / `peek`):
C return value, buffer state after the call, the bytes written to the
caller's output array, callback invocations. -/
structure ringbuff_read_result where
  ret : Nat
  buf : Option ringbuff_t
  out : List Nat
  evts : List (ringbuff_evt_type × Nat)
deriving DecidableEq, Repr

/-- `ringbuff_write(buff, data, btw)`.  `data = none` models a NULL data
pointer. -/
def ringbuff_write (um : Bool) (buff : Option ringbuff_t)
    (data : Option (List Nat)) (btw : Nat) : ringbuff_op_result :=
  match buff, data with
  | some b, some d =>
      if BUF_IS_VALID um (some b) = false ∨ btw = 0 then ⟨0, some b, []⟩
      else
        let free := ringbuff_get_free um (some b)
        let btw1 := BUF_MIN free btw
        if btw1 = 0 then ⟨0, some b, []⟩
        else
          let stor := b.buff.getD []
          let tocopy := BUF_MIN (b.size - b.w) btw1
          let stor1 := memwrite stor b.w d tocopy
          let w1 := b.w + tocopy
          let btw2 := btw1 - tocopy
          let stor2 := if 0 < btw2 then memwrite stor1 0 (d.drop tocopy) btw2 else stor1
          let w2 := if 0 < btw2 then btw2 else w1
          let w3 := if w2 ≥ b.size then 0 else w2
          let b2 : ringbuff_t := { b with buff := some stor2, w := w3 }
          ⟨tocopy + btw2, some b2, BUF_SEND_EVT b2 RINGBUFF_EVT_WRITE (tocopy + btw2)⟩
  | _, _ => ⟨0, buff, []⟩

/-- `ringbuff_read(buff, data, btr)`.  `data_null` models a NULL output
pointer; the bytes copied into the caller's array are returned in `out`. -/
def ringbuff_read (um : Bool) (buff : Option ringbuff_t)
    (data_null : Bool) (btr : Nat) : ringbuff_read_result :=
  match buff with
  | none => ⟨0, none, [], []⟩
  | some b =>
      if BUF_IS_VALID um (some b) = false ∨ data_null = true ∨ btr = 0 then
        ⟨0, some b, [], []⟩
      else
        let full := ringbuff_get_full um (some b)
        let btr1 := BUF_MIN full btr
        if btr1 = 0 then ⟨0, some b, [], []⟩
        else
          let stor := b.buff.getD []
          let tocopy := BUF_MIN (b.size - b.r) btr1
          let out1 := memread stor b.r tocopy
          let r1 := b.r + tocopy
          let btr2 := btr1 - tocopy
          let out2 := if 0 < btr2 then out1 ++ memread stor 0 btr2 else out1
          let r2 := if 0 < btr2 then btr2 else r1
          let r3 := if r2 ≥ b.size then 0 else r2
          let b2 : ringbuff_t := { b with r := r3 }
          ⟨tocopy + btr2, some b2, out2, BUF_SEND_EVT b2 RINGBUFF_EVT_READ (tocopy + btr2)⟩

/-- `ringbuff_peek(buff, skip_count, data, btp)`: read without moving the
read pointer.  The C function keeps the struct untouched and sends no event;
the state it returns here is the input state. -/
def ringbuff_peek (um : Bool) (buff : Option ringbuff_t) (skip_count : Nat)
    (data_null : Bool) (btp : Nat) : ringbuff_read_result :=
  match buff with
  | none => ⟨0, none, [], []⟩
  | some b =>
      if BUF_IS_VALID um (some b) = false ∨ data_null = true ∨ btp = 0 then
        ⟨0, some b, [], []⟩
      else
        let full := ringbuff_get_full um (some b)
        if skip_count ≥ full then ⟨0, some b, [], []⟩
        else
          let rs := b.r + skip_count
          let full1 := full - skip_count
          let r := if rs ≥ b.size then rs - b.size else rs
          let btp1 := BUF_MIN full1 btp
          if btp1 = 0 then ⟨0, some b, [], []⟩
          else
            let stor := b.buff.getD []
            let tocopy := BUF_MIN (b.size - r) btp1
            let out1 := memread stor r tocopy
            let btp2 := btp1 - tocopy
            let out2 := if 0 < btp2 then out1 ++ memread stor 0 btp2 else out1
            ⟨tocopy + btp2, some b, out2, []⟩

/-- `ringbuff_reset`: set both indices to zero on a valid buffer and send a
reset event. -/
def ringbuff_reset (um : Bool) (buff : Option ringbuff_t) :
    Option ringbuff_t × List (ringbuff_evt_type × Nat) :=
  match buff with
  | none => (none, [])
  | some b =>
      if BUF_IS_VALID um (some b) then
        (some { b with w := 0, r := 0 },
         BUF_SEND_EVT { b with w := 0, r := 0 } RINGBUFF_EVT_RESET 0)
      else (some b, [])

/-- `ringbuff_get_linear_block_read_address`: the offset `r` into the
storage region (`&buff->buff[buff->r]`), or `none` for NULL. -/
def ringbuff_get_linear_block_read_address (um : Bool)
    (buff : Option ringbuff_t) : Option Nat :=
  match buff with
  | none => none
  | some b => if BUF_IS_VALID um (some b) then some b.r else none

/-- `ringbuff_get_linear_block_read_length`. -/
def ringbuff_get_linear_block_read_length (um : Bool)
    (buff : Option ringbuff_t) : Nat :=
  match buff with
  | none => 0
  | some b =>
      if BUF_IS_VALID um (some b) then
        if b.w > b.r then b.w - b.r
        else if b.r > b.w then b.size - b.r
        else 0
      else 0

/-- `ringbuff_skip(buff, len)`: advance the read pointer by at most the
used length, copying nothing. -/
def ringbuff_skip (um : Bool) (buff : Option ringbuff_t) (len : Nat) :
    ringbuff_op_result :=
  match buff with
  | none => ⟨0, none, []⟩
  | some b =>
      if BUF_IS_VALID um (some b) = false ∨ len = 0 then ⟨0, some b, []⟩
      else
        let full := ringbuff_get_full um (some b)
        let len1 := BUF_MIN len full
        let r1 := b.r + len1
        let r2 := if r1 ≥ b.size then r1 - b.size else r1
        let b2 : ringbuff_t := { b with r := r2 }
        ⟨len1, some b2, BUF_SEND_EVT b2 RINGBUFF_EVT_READ len1⟩

/-- `ringbuff_get_linear_block_write_address`: the offset `w` into the
storage region, or `none` for NULL. -/
def ringbuff_get_linear_block_write_address (um : Bool)
    (buff : Option ringbuff_t) : Option Nat :=
  match buff with
  | none => none
  | some b => if BUF_IS_VALID um (some b) then some b.w else none

/-- `ringbuff_get_linear_block_write_length`. -/
def ringbuff_get_linear_block_write_length (um : Bool)
    (buff : Option ringbuff_t) : Nat :=
  match buff with
  | none => 0
  | some b =>
      if BUF_IS_VALID um (some b) then
        if b.w ≥ b.r then
          let len := b.size - b.w
          if b.r = 0 then len - 1 else len
        else b.r - b.w - 1
      else 0

/-- `ringbuff_advance(buff, len)`: advance the write pointer by at most the
free length, copying nothing. -/
def ringbuff_advance (um : Bool) (buff : Option ringbuff_t) (len : Nat) :
    ringbuff_op_result :=
  match buff with
  | none => ⟨0, none, []⟩
  | some b =>
      if BUF_IS_VALID um (some b) = false ∨ len = 0 then ⟨0, some b, []⟩
      else
        let free := ringbuff_get_free um (some b)
        let len1 := BUF_MIN len free
        let w1 := b.w + len1
        let w2 := if w1 ≥ b.size then w1 - b.size else w1
        let b2 : ringbuff_t := { b with w := w2 }
        ⟨len1, some b2, BUF_SEND_EVT b2 RINGBUFF_EVT_WRITE len1⟩

/-- A buffer handle passes the validity check (spec: `ready`). -/
def ringbuff_ready (um : Bool) (b : ringbuff_t) : Prop :=
  BUF_IS_VALID um (some b) = true

/-- Well-formed state: both indices in `[0, size)` and the storage region
holding exactly `size` bytes. -/
def ringbuff_wf (b : ringbuff_t) : Prop :=
  b.w < b.size ∧ b.r < b.size ∧ (b.buff.getD []).length = b.size

instance : Decidable (ringbuff_ready um b) := by
  unfold ringbuff_ready; infer_instance

instance : Decidable (ringbuff_wf b) := by
  unfold ringbuff_wf; infer_instance

/-- The spec's accounting invariant `used_bytes + free_bytes = N - 1`, for an
optional post-state of an operation. -/
def ringbuff_sum_inv (um : Bool) (ob : Option ringbuff_t) : Prop :=
  ∀ bb, ob = some bb →
    ringbuff_get_free um (some bb) + ringbuff_get_full um (some bb) = bb.size - 1

/-- The spec's index invariant `0 ≤ w < N` and `0 ≤ r < N`, for an optional
post-state of an operation. -/
def ringbuff_idx_inv (ob : Option ringbuff_t) : Prop :=
  ∀ bb, ob = some bb → bb.w < bb.size ∧ bb.r < bb.size

/-- A concrete ready, well-formed buffer for witnesses: capacity 4, storage
`[0, 0, 0, 0]`, both indices 0, no callback installed, magic not in use. -/
def testBuf : ringbuff_t :=
  { buff := some [0, 0, 0, 0], size := 4, r := 0, w := 0, evt_fn := false,
    magic1 := 0, magic2 := 0 }

/-- A concrete buffer that fails the validity check (storage detached). -/
def invalidBuf : ringbuff_t :=
  { buff := none, size := 4, r := 0, w := 0, evt_fn := false,
    magic1 := 0, magic2 := 0 }

/-- A concrete ready, well-formed, non-empty buffer: capacity 4, one used
byte (value 10 at offset 0), `r = 0`, `w = 1`. -/
def cexBuf : ringbuff_t :=
  { buff := some [10, 0, 0, 0], size := 4, r := 0, w := 1, evt_fn := false,
    magic1 := 0, magic2 := 0 }

/-- A concrete ready, well-formed, empty buffer whose indices sit one byte
before the physical end, so that a two-byte write wraps. -/
def wrapBuf : ringbuff_t :=
  { buff := some [0, 0, 0, 0], size := 4, r := 3, w := 3, evt_fn := true,
    magic1 := 0, magic2 := 0 }

/-! ## Basic facts about the validity check and the capacity accounting -/

theorem BUF_MIN_eq_min (x y : Nat) : BUF_MIN x y = min x y := by
  unfold BUF_MIN; split <;> omega

theorem valid_size_pos (um : Bool) (b : ringbuff_t)
    (h : BUF_IS_VALID um (some b) = true) : 0 < b.size := by
  unfold BUF_IS_VALID at h
  simp only [Bool.and_eq_true, decide_eq_true_eq] at h
  exact h.2

theorem valid_buff_isSome (um : Bool) (b : ringbuff_t)
    (h : BUF_IS_VALID um (some b) = true) : b.buff.isSome = true := by
  unfold BUF_IS_VALID at h
  simp only [Bool.and_eq_true, decide_eq_true_eq] at h
  exact h.1.2

theorem BUF_IS_VALID_congr (um : Bool) (a c : ringbuff_t)
    (h1 : a.magic1 = c.magic1) (h2 : a.magic2 = c.magic2)
    (h3 : a.buff.isSome = c.buff.isSome) (h4 : a.size = c.size) :
    BUF_IS_VALID um (some a) = BUF_IS_VALID um (some c) := by
  simp only [BUF_IS_VALID]
  rw [h1, h2, h3, h4]

theorem get_full_le (um : Bool) (b : ringbuff_t)
    (hv : ringbuff_ready um b) (hw : b.w < b.size) (hr : b.r < b.size) :
    ringbuff_get_full um (some b) ≤ b.size - 1 := by
  have hv' : BUF_IS_VALID um (some b) = true := hv
  simp only [ringbuff_get_full, hv', if_true]
  split_ifs <;> omega

theorem get_free_le (um : Bool) (b : ringbuff_t)
    (hv : ringbuff_ready um b) (hw : b.w < b.size) (hr : b.r < b.size) :
    ringbuff_get_free um (some b) ≤ b.size - 1 := by
  have hv' : BUF_IS_VALID um (some b) = true := hv
  simp only [ringbuff_get_free, hv', if_true]
  split_ifs <;> omega

theorem free_add_full (um : Bool) (b : ringbuff_t)
    (hv : ringbuff_ready um b) (hw : b.w < b.size) (hr : b.r < b.size) :
    ringbuff_get_free um (some b) + ringbuff_get_full um (some b) = b.size - 1 := by
  have hv' : BUF_IS_VALID um (some b) = true := hv
  have hs : 0 < b.size := valid_size_pos um b hv'
  simp only [ringbuff_get_free, ringbuff_get_full, hv', if_true]
  split_ifs <;> omega

/-- Splitting a `%` on an argument below `2 * N` into the two linear cases. -/
theorem mod_two_cases (a N : Nat) (h : a < 2 * N) :
    a % N = if a ≥ N then a - N else a := by
  split
  · rw [Nat.mod_eq_sub_mod (by omega)]
    exact Nat.mod_eq_of_lt (by omega)
  · exact Nat.mod_eq_of_lt (by omega)

/-! ## Pointwise description of the memcpy models -/

theorem memread_length (buf : List Nat) (pos n : Nat) :
    (memread buf pos n).length = n := by
  simp [memread]

theorem memread_getD (buf : List Nat) (pos n j : Nat) (hj : j < n) :
    (memread buf pos n).getD j 0 = buf.getD (pos + j) 0 := by
  unfold memread
  rw [List.getD_eq_getElem?_getD, List.getElem?_map, List.getElem?_range hj]
  rfl

theorem memwrite_length (dst src : List Nat) (pos n : Nat) :
    (memwrite dst pos src n).length = dst.length := by
  simp [memwrite]

theorem memwrite_getD (dst src : List Nat) (pos n i : Nat) (hi : i < dst.length) :
    (memwrite dst pos src n).getD i 0 =
      if pos ≤ i ∧ i < pos + n then src.getD (i - pos) 0 else dst.getD i 0 := by
  unfold memwrite
  rw [List.getD_eq_getElem?_getD, List.getElem?_map, List.getElem?_range hi]
  rfl

theorem getD_drop_add (l : List Nat) (m j : Nat) :
    (l.drop m).getD j 0 = l.getD (m + j) 0 := by
  rw [List.getD_eq_getElem?_getD, List.getD_eq_getElem?_getD, List.getElem?_drop]

/-! ## Claim C4: the linear write length formula -/

/-- C4: for every ready buffer state, `ringbuff_get_linear_block_write_length`
returns `N - write_pos - 1` when `write_pos ≥ read_pos` and `read_pos = 0`,
`N - write_pos` when `write_pos ≥ read_pos` and `read_pos ≠ 0`, and
`read_pos - write_pos - 1` when `write_pos < read_pos`: the one-byte sentinel
gap is reserved exactly when `read_pos` is 0. -/
theorem ringbuff_c4 (um : Bool) (b : ringbuff_t)
    (hv : ringbuff_ready um b) (_hwf : ringbuff_wf b) :
    (b.w ≥ b.r → b.r = 0 →
      ringbuff_get_linear_block_write_length um (some b) = b.size - b.w - 1)
    ∧ (b.w ≥ b.r → b.r ≠ 0 →
      ringbuff_get_linear_block_write_length um (some b) = b.size - b.w)
    ∧ (b.w < b.r →
      ringbuff_get_linear_block_write_length um (some b) = b.r - b.w - 1) := by
  have hv' : BUF_IS_VALID um (some b) = true := hv
  refine ⟨?_, ?_, ?_⟩
  · intro h1 h2
    simp [ringbuff_get_linear_block_write_length, hv', h1, h2]
  · intro h1 h2
    simp [ringbuff_get_linear_block_write_length, hv', h1, h2]
  · intro h1
    have h2 : ¬ b.w ≥ b.r := by omega
    simp [ringbuff_get_linear_block_write_length, hv', h2]

theorem ringbuff_c4_witness :
    ringbuff_ready false testBuf ∧ ringbuff_wf testBuf ∧
    ringbuff_get_linear_block_write_length false (some testBuf) =
      testBuf.size - testBuf.w - 1 :=
  ⟨by decide, by decide,
   (ringbuff_c4 false testBuf (by decide) (by decide)).1 (by decide) (by decide)⟩

/-! ## Claim C6: "not ready" is a safe absorbing state -/

/-- C6: on every buffer that fails the validity check (NULL handle, NULL
storage, zero capacity, or wrong magic when compiled in), every operation is
a no-op: write, read, peek, skip and advance return 0, change nothing and
invoke no callback; the accounting and linear-length queries return 0; the
linear-address queries return NULL; free, set_evt_fn and reset leave the
state untouched. -/
theorem ringbuff_c6 (um : Bool) (buff : Option ringbuff_t)
    (h : BUF_IS_VALID um buff = false) :
    (∀ d btw, ringbuff_write um buff d btw = ⟨0, buff, []⟩)
    ∧ (∀ dn btr, ringbuff_read um buff dn btr = ⟨0, buff, [], []⟩)
    ∧ (∀ sk dn btp, ringbuff_peek um buff sk dn btp = ⟨0, buff, [], []⟩)
    ∧ (∀ len, ringbuff_skip um buff len = ⟨0, buff, []⟩)
    ∧ (∀ len, ringbuff_advance um buff len = ⟨0, buff, []⟩)
    ∧ ringbuff_get_free um buff = 0
    ∧ ringbuff_get_full um buff = 0
    ∧ ringbuff_get_linear_block_read_length um buff = 0
    ∧ ringbuff_get_linear_block_write_length um buff = 0
    ∧ ringbuff_get_linear_block_read_address um buff = none
    ∧ ringbuff_get_linear_block_write_address um buff = none
    ∧ ringbuff_free um buff = buff
    ∧ (∀ fn, ringbuff_set_evt_fn um buff fn = buff)
    ∧ ringbuff_reset um buff = (buff, [])
    ∧ ringbuff_is_ready um buff = false := by
  cases buff with
  | none =>
      refine ⟨?_, ?_, ?_, ?_, ?_, ?_, ?_, ?_, ?_, ?_, ?_, ?_, ?_, ?_, ?_⟩
      · intro d btw; cases d <;> rfl
      · intro dn btr; rfl
      · intro sk dn btp; rfl
      · intro len; rfl
      · intro len; rfl
      · rfl
      · rfl
      · rfl
      · rfl
      · rfl
      · rfl
      · rfl
      · intro fn; rfl
      · rfl
      · rfl
  | some b =>
      refine ⟨?_, ?_, ?_, ?_, ?_, ?_, ?_, ?_, ?_, ?_, ?_, ?_, ?_, ?_, ?_⟩
      · intro d btw; cases d <;> simp [ringbuff_write, h]
      · intro dn btr; simp [ringbuff_read, h]
      · intro sk dn btp; simp [ringbuff_peek, h]
      · intro len; simp [ringbuff_skip, h]
      · intro len; simp [ringbuff_advance, h]
      · simp [ringbuff_get_free, h]
      · simp [ringbuff_get_full, h]
      · simp [ringbuff_get_linear_block_read_length, h]
      · simp [ringbuff_get_linear_block_write_length, h]
      · simp [ringbuff_get_linear_block_read_address, h]
      · simp [ringbuff_get_linear_block_write_address, h]
      · simp [ringbuff_free, h]
      · intro fn; simp [ringbuff_set_evt_fn, h]
      · simp [ringbuff_reset, h]
      · simp [ringbuff_is_ready, h]

theorem ringbuff_c6_witness :
    BUF_IS_VALID false (some invalidBuf) = false ∧
    ringbuff_write false (some invalidBuf) (some [1, 2]) 2 =
      ⟨0, some invalidBuf, []⟩ :=
  ⟨by decide, (ringbuff_c6 false (some invalidBuf) (by decide)).1 (some [1, 2]) 2⟩

/-! ## Claim C9: init clears the notification callback -/

/-- C9: a successful `ringbuff_init` zeroes the whole control structure
before setting `size` and `buff`, so re-initializing a buffer on which
`ringbuff_set_evt_fn` had installed a callback leaves the callback cleared
(`evt_fn` disabled) until it is installed again. -/
theorem ringbuff_c9 (um : Bool) (b : ringbuff_t) (d : List Nat) (sz : Nat)
    (hv : ringbuff_ready um b) (hsz : sz ≠ 0) :
    (ringbuff_init um (ringbuff_set_evt_fn um (some b) true) (some d) sz).1 = 1
    ∧ (ringbuff_init um (ringbuff_set_evt_fn um (some b) true) (some d) sz).2 =
        some { buff := some d, size := sz, r := 0, w := 0, evt_fn := false,
               magic1 := if um then RINGBUFF_MAGIC1 else 0,
               magic2 := if um then RINGBUFF_MAGIC2 else 0 }
    ∧ (∀ bb,
        (ringbuff_init um (ringbuff_set_evt_fn um (some b) true) (some d) sz).2
          = some bb → bb.evt_fn = false) := by
  have hv' : BUF_IS_VALID um (some b) = true := hv
  have h1 : ringbuff_set_evt_fn um (some b) true = some { b with evt_fn := true } := by
    simp [ringbuff_set_evt_fn, hv']
  rw [h1]
  refine ⟨?_, ?_, ?_⟩
  · simp [ringbuff_init, hsz]
  · simp [ringbuff_init, hsz]
  · intro bb hbb
    simp [ringbuff_init, hsz] at hbb
    rw [← hbb]

theorem ringbuff_c9_witness :
    ringbuff_ready false testBuf ∧ (2 : Nat) ≠ 0 ∧
    (ringbuff_init false (ringbuff_set_evt_fn false (some testBuf) true)
      (some [5, 6]) 2).1 = 1 :=
  ⟨by decide, by decide, (ringbuff_c9 false testBuf [5, 6] 2 (by decide) (by decide)).1⟩

/-! ## Explicit case equations for `ringbuff_write` -/

theorem ringbuff_write_eq_zero (um : Bool) (b : ringbuff_t) (d : List Nat)
    (btw : Nat) (hv : ringbuff_ready um b)
    (hk : min btw (ringbuff_get_free um (some b)) = 0) :
    ringbuff_write um (some b) (some d) btw = ⟨0, some b, []⟩ := by
  have hv' : BUF_IS_VALID um (some b) = true := hv
  by_cases hbtw : btw = 0
  · simp [ringbuff_write, hbtw]
  · have hmin : BUF_MIN (ringbuff_get_free um (some b)) btw = 0 := by
      rw [BUF_MIN_eq_min]; omega
    simp only [ringbuff_write]
    rw [if_neg (by simp [hv', hbtw]), hmin]
    simp

theorem ringbuff_write_eq_nowrap (um : Bool) (b : ringbuff_t) (d stor : List Nat)
    (btw k : Nat) (hv : ringbuff_ready um b) (hstor : b.buff = some stor)
    (hk : k = min btw (ringbuff_get_free um (some b))) (hk0 : 0 < k)
    (hA : k ≤ b.size - b.w) :
    ringbuff_write um (some b) (some d) btw =
      ⟨k, some { b with buff := some (memwrite stor b.w d k),
                        w := if b.w + k ≥ b.size then 0 else b.w + k },
       BUF_SEND_EVT
         { b with buff := some (memwrite stor b.w d k),
                  w := if b.w + k ≥ b.size then 0 else b.w + k }
         RINGBUFF_EVT_WRITE k⟩ := by
  have hv' : BUF_IS_VALID um (some b) = true := hv
  have hbtw : btw ≠ 0 := by omega
  have h1 : BUF_MIN (ringbuff_get_free um (some b)) btw = k := by
    rw [BUF_MIN_eq_min]; omega
  have h2 : BUF_MIN (b.size - b.w) k = k := by
    rw [BUF_MIN_eq_min]; omega
  simp only [ringbuff_write]
  rw [if_neg (by simp [hv', hbtw]), h1, if_neg (by omega), hstor, Option.getD_some, h2]
  simp

theorem ringbuff_write_eq_wrap (um : Bool) (b : ringbuff_t) (d stor : List Nat)
    (btw k : Nat) (hv : ringbuff_ready um b) (hstor : b.buff = some stor)
    (hw : b.w < b.size) (hr : b.r < b.size)
    (hk : k = min btw (ringbuff_get_free um (some b)))
    (hB : b.size - b.w < k) :
    ringbuff_write um (some b) (some d) btw =
      ⟨k, some { b with
                 buff := some (memwrite (memwrite stor b.w d (b.size - b.w)) 0
                           (d.drop (b.size - b.w)) (k - (b.size - b.w))),
                 w := k - (b.size - b.w) },
       BUF_SEND_EVT
         { b with
           buff := some (memwrite (memwrite stor b.w d (b.size - b.w)) 0
                     (d.drop (b.size - b.w)) (k - (b.size - b.w))),
           w := k - (b.size - b.w) }
         RINGBUFF_EVT_WRITE k⟩ := by
  have hv' : BUF_IS_VALID um (some b) = true := hv
  have hF : ringbuff_get_free um (some b) ≤ b.size - 1 := get_free_le um b hv hw hr
  have hs : 0 < b.size := valid_size_pos um b hv'
  have hk0 : 0 < k := by omega
  have hbtw : btw ≠ 0 := by omega
  have h1 : BUF_MIN (ringbuff_get_free um (some b)) btw = k := by
    rw [BUF_MIN_eq_min]; omega
  have h2 : BUF_MIN (b.size - b.w) k = b.size - b.w := by
    rw [BUF_MIN_eq_min]; omega
  have h3 : 0 < k - (b.size - b.w) := by omega
  have h4 : ¬ (k - (b.size - b.w) ≥ b.size) := by omega
  have h5 : b.size - b.w + (k - (b.size - b.w)) = k := by omega
  simp only [ringbuff_write]
  rw [if_neg (by simp [hv', hbtw]), h1, if_neg (by omega), hstor, Option.getD_some,
    h2, if_pos h3, if_pos h3, if_neg h4, h5]

/-! ## Full characterization of `ringbuff_write` -/

/-- On a ready well-formed state, `ringbuff_write` returns the clamp
`min btw free`, places byte `i` of the data at offset `(w + i) % N`, moves
`w` to `(w + clamp) % N`, touches no other byte, and is a complete no-op
when the clamp is 0. -/
theorem write_characterization (um : Bool) (b : ringbuff_t) (d : List Nat) (btw : Nat)
    (hv : ringbuff_ready um b) (hwf : ringbuff_wf b) :
    (ringbuff_write um (some b) (some d) btw).ret
        = min btw (ringbuff_get_free um (some b))
    ∧ (min btw (ringbuff_get_free um (some b)) = 0 →
        ringbuff_write um (some b) (some d) btw = ⟨0, some b, []⟩)
    ∧ (∃ stor2 : List Nat,
        (ringbuff_write um (some b) (some d) btw).buf
          = some { b with buff := some stor2,
                          w := (b.w + min btw (ringbuff_get_free um (some b))) % b.size }
        ∧ stor2.length = b.size
        ∧ (∀ i, i < min btw (ringbuff_get_free um (some b)) →
            stor2.getD ((b.w + i) % b.size) 0 = d.getD i 0)
        ∧ (∀ p, p < b.size →
            (∀ i, i < min btw (ringbuff_get_free um (some b)) →
              p ≠ (b.w + i) % b.size) →
            stor2.getD p 0 = (b.buff.getD []).getD p 0)) := by
  obtain ⟨hw, hr, hlen⟩ := hwf
  have hv' : BUF_IS_VALID um (some b) = true := hv
  have hs : 0 < b.size := valid_size_pos um b hv'
  obtain ⟨stor0, hstor⟩ := Option.isSome_iff_exists.mp (valid_buff_isSome um b hv')
  have hlen0 : stor0.length = b.size := by rw [hstor] at hlen; simpa using hlen
  have hF : ringbuff_get_free um (some b) ≤ b.size - 1 := get_free_le um b hv hw hr
  set k := min btw (ringbuff_get_free um (some b)) with hkdef
  have hkle : k ≤ b.size - 1 := by omega
  by_cases hk0 : k = 0
  · have hres : ringbuff_write um (some b) (some d) btw = ⟨0, some b, []⟩ :=
      ringbuff_write_eq_zero um b d btw hv (by omega)
    rw [hres]
    refine ⟨by simp [hk0], fun _ => rfl, stor0, ?_, hlen0, ?_, ?_⟩
    · rw [hk0, Nat.add_zero, Nat.mod_eq_of_lt hw, ← hstor]
    · intro i hi; omega
    · intro p _ _; rw [hstor, Option.getD_some]
  · by_cases hA : k ≤ b.size - b.w
    · -- the copy does not wrap
      have hres := ringbuff_write_eq_nowrap um b d stor0 btw k hv hstor hkdef
        (by omega) hA
      rw [hres]
      have hwmod : (if b.w + k ≥ b.size then 0 else b.w + k) = (b.w + k) % b.size := by
        rw [mod_two_cases (b.w + k) b.size (by omega)]
        split_ifs with h
        · omega
        · rfl
      refine ⟨rfl, fun h => absurd h hk0, memwrite stor0 b.w d k, ?_, ?_, ?_, ?_⟩
      · rw [← hwmod]
      · rw [memwrite_length, hlen0]
      · intro i hi
        have hlt : b.w + i < b.size := by omega
        rw [Nat.mod_eq_of_lt hlt,
          memwrite_getD stor0 d b.w k (b.w + i) (by omega),
          if_pos ⟨by omega, by omega⟩, show b.w + i - b.w = i by omega]
      · intro p hp hout
        have hcond : ¬ (b.w ≤ p ∧ p < b.w + k) := by
          intro hcond
          exact hout (p - b.w) (by omega)
            (by rw [show b.w + (p - b.w) = p by omega, Nat.mod_eq_of_lt hp])
        rw [memwrite_getD stor0 d b.w k p (by omega), if_neg hcond, hstor,
          Option.getD_some]
    · -- the copy wraps past the physical end
      have hB : b.size - b.w < k := by omega
      have hres := ringbuff_write_eq_wrap um b d stor0 btw k hv hstor hw hr hkdef hB
      rw [hres]
      have hwmod : k - (b.size - b.w) = (b.w + k) % b.size := by
        rw [mod_two_cases (b.w + k) b.size (by omega)]
        split_ifs with h
        · omega
        · omega
      refine ⟨rfl, fun h => absurd h hk0,
        memwrite (memwrite stor0 b.w d (b.size - b.w)) 0
          (d.drop (b.size - b.w)) (k - (b.size - b.w)), ?_, ?_, ?_, ?_⟩
      · rw [← hwmod]
      · rw [memwrite_length, memwrite_length, hlen0]
      · intro i hi
        by_cases hit : i < b.size - b.w
        · have hlt : b.w + i < b.size := by omega
          rw [Nat.mod_eq_of_lt hlt,
            memwrite_getD _ _ 0 _ (b.w + i) (by rw [memwrite_length, hlen0]; omega),
            if_neg (by omega),
            memwrite_getD stor0 d b.w (b.size - b.w) (b.w + i) (by omega),
            if_pos ⟨by omega, by omega⟩, show b.w + i - b.w = i by omega]
        · have hge : b.w + i ≥ b.size := by omega
          have hmod : (b.w + i) % b.size = b.w + i - b.size := by
            rw [mod_two_cases (b.w + i) b.size (by omega)]
            rw [if_pos hge]
          rw [hmod,
            memwrite_getD _ _ 0 _ (b.w + i - b.size)
              (by rw [memwrite_length, hlen0]; omega),
            if_pos ⟨by omega, by omega⟩, Nat.sub_zero, getD_drop_add,
            show b.size - b.w + (b.w + i - b.size) = i by omega]
      · intro p hp hout
        have hcond1 : ¬ (0 ≤ p ∧ p < 0 + (k - (b.size - b.w))) := by
          intro hcond
          refine absurd ?_ (hout (b.size - b.w + p) (by omega))
          rw [show b.w + (b.size - b.w + p) = b.size + p by omega]
          rw [mod_two_cases (b.size + p) b.size (by omega), if_pos (by omega)]
          omega
        have hcond2 : ¬ (b.w ≤ p ∧ p < b.w + (b.size - b.w)) := by
          intro hcond
          exact hout (p - b.w) (by omega)
            (by rw [show b.w + (p - b.w) = p by omega, Nat.mod_eq_of_lt hp])
        rw [memwrite_getD _ _ 0 _ p (by rw [memwrite_length, hlen0]; omega),
          if_neg hcond1,
          memwrite_getD stor0 d b.w (b.size - b.w) p (by omega),
          if_neg hcond2, hstor, Option.getD_some]

/-! ## Claim C2: write transfers exactly the clamped length -/

/-- C2: on every ready buffer and every input `(data, requested_len)`,
`ringbuff_write` transfers exactly `min(requested_len, free_space())` bytes —
placing byte `i` of the data at offset `(write_pos + i) % N`, which is the
two-segment copy into the tail of storage followed by the wrapped remainder
at index 0 — returns that count, moves `write_pos` to
`(write_pos + count) % N` (so it wraps to 0 when it lands exactly on `N`),
touches no other byte of storage, and, when the clamped length is 0, returns
0 leaving the entire buffer state unchanged (no error is signalled in any
other way). -/
theorem ringbuff_c2 (um : Bool) (b : ringbuff_t) (d : List Nat) (btw : Nat)
    (hv : ringbuff_ready um b) (hwf : ringbuff_wf b) :
    (ringbuff_write um (some b) (some d) btw).ret
        = min btw (ringbuff_get_free um (some b))
    ∧ (min btw (ringbuff_get_free um (some b)) = 0 →
        ringbuff_write um (some b) (some d) btw = ⟨0, some b, []⟩)
    ∧ (∃ stor2 : List Nat,
        (ringbuff_write um (some b) (some d) btw).buf
          = some { b with buff := some stor2,
                          w := (b.w + min btw (ringbuff_get_free um (some b))) % b.size }
        ∧ stor2.length = b.size
        ∧ (∀ i, i < min btw (ringbuff_get_free um (some b)) →
            stor2.getD ((b.w + i) % b.size) 0 = d.getD i 0)
        ∧ (∀ p, p < b.size →
            (∀ i, i < min btw (ringbuff_get_free um (some b)) →
              p ≠ (b.w + i) % b.size) →
            stor2.getD p 0 = (b.buff.getD []).getD p 0)) :=
  write_characterization um b d btw hv hwf

theorem ringbuff_c2_witness :
    ringbuff_ready false wrapBuf ∧ ringbuff_wf wrapBuf ∧
    (ringbuff_write false (some wrapBuf) (some [7, 8]) 2).ret
      = min 2 (ringbuff_get_free false (some wrapBuf)) :=
  ⟨by decide, by decide,
   (ringbuff_c2 false wrapBuf [7, 8] 2 (by decide) (by decide)).1⟩

/-! ## Explicit case equations for `ringbuff_read` -/

theorem ringbuff_read_eq_zero (um : Bool) (b : ringbuff_t) (btr : Nat)
    (hv : ringbuff_ready um b)
    (hk : min btr (ringbuff_get_full um (some b)) = 0) :
    ringbuff_read um (some b) false btr = ⟨0, some b, [], []⟩ := by
  have hv' : BUF_IS_VALID um (some b) = true := hv
  by_cases hbtr : btr = 0
  · simp [ringbuff_read, hbtr]
  · have hmin : BUF_MIN (ringbuff_get_full um (some b)) btr = 0 := by
      rw [BUF_MIN_eq_min]; omega
    simp only [ringbuff_read]
    rw [if_neg (by simp [hv', hbtr]), hmin]
    simp

theorem ringbuff_read_eq_nowrap (um : Bool) (b : ringbuff_t) (stor : List Nat)
    (btr k : Nat) (hv : ringbuff_ready um b) (hstor : b.buff = some stor)
    (hk : k = min btr (ringbuff_get_full um (some b))) (hk0 : 0 < k)
    (hA : k ≤ b.size - b.r) :
    ringbuff_read um (some b) false btr =
      ⟨k, some { b with r := if b.r + k ≥ b.size then 0 else b.r + k },
       memread stor b.r k,
       BUF_SEND_EVT { b with r := if b.r + k ≥ b.size then 0 else b.r + k }
         RINGBUFF_EVT_READ k⟩ := by
  have hv' : BUF_IS_VALID um (some b) = true := hv
  have hbtr : btr ≠ 0 := by omega
  have h1 : BUF_MIN (ringbuff_get_full um (some b)) btr = k := by
    rw [BUF_MIN_eq_min]; omega
  have h2 : BUF_MIN (b.size - b.r) k = k := by
    rw [BUF_MIN_eq_min]; omega
  simp only [ringbuff_read]
  rw [if_neg (by simp [hv', hbtr]), h1, if_neg (by omega), hstor, Option.getD_some, h2]
  simp

theorem ringbuff_read_eq_wrap (um : Bool) (b : ringbuff_t) (stor : List Nat)
    (btr k : Nat) (hv : ringbuff_ready um b) (hstor : b.buff = some stor)
    (hw : b.w < b.size) (hr : b.r < b.size)
    (hk : k = min btr (ringbuff_get_full um (some b)))
    (hB : b.size - b.r < k) :
    ringbuff_read um (some b) false btr =
      ⟨k, some { b with r := k - (b.size - b.r) },
       memread stor b.r (b.size - b.r) ++ memread stor 0 (k - (b.size - b.r)),
       BUF_SEND_EVT { b with r := k - (b.size - b.r) } RINGBUFF_EVT_READ k⟩ := by
  have hv' : BUF_IS_VALID um (some b) = true := hv
  have hFull : ringbuff_get_full um (some b) ≤ b.size - 1 := get_full_le um b hv hw hr
  have hs : 0 < b.size := valid_size_pos um b hv'
  have hk0 : 0 < k := by omega
  have hbtr : btr ≠ 0 := by omega
  have h1 : BUF_MIN (ringbuff_get_full um (some b)) btr = k := by
    rw [BUF_MIN_eq_min]; omega
  have h2 : BUF_MIN (b.size - b.r) k = b.size - b.r := by
    rw [BUF_MIN_eq_min]; omega
  have h3 : 0 < k - (b.size - b.r) := by omega
  have h4 : ¬ (k - (b.size - b.r) ≥ b.size) := by omega
  have h5 : b.size - b.r + (k - (b.size - b.r)) = k := by omega
  simp only [ringbuff_read]
  rw [if_neg (by simp [hv', hbtr]), h1, if_neg (by omega), hstor, Option.getD_some,
    h2, if_pos h3, if_pos h3, if_neg h4, h5]

/-! ## Full characterization of `ringbuff_read` -/

/-- On a ready well-formed state, `ringbuff_read` returns the clamp
`min btr full`, copies out exactly the bytes at offsets `(r + j) % N`
for `j` below the clamp, moves `r` to `(r + clamp) % N`, and is a complete
no-op when the clamp is 0. -/
theorem read_characterization (um : Bool) (b : ringbuff_t) (btr : Nat)
    (hv : ringbuff_ready um b) (hwf : ringbuff_wf b) :
    (ringbuff_read um (some b) false btr).ret
        = min btr (ringbuff_get_full um (some b))
    ∧ (min btr (ringbuff_get_full um (some b)) = 0 →
        ringbuff_read um (some b) false btr = ⟨0, some b, [], []⟩)
    ∧ (ringbuff_read um (some b) false btr).buf
        = some { b with r := (b.r + min btr (ringbuff_get_full um (some b))) % b.size }
    ∧ (ringbuff_read um (some b) false btr).out.length
        = min btr (ringbuff_get_full um (some b))
    ∧ (∀ j, j < min btr (ringbuff_get_full um (some b)) →
        (ringbuff_read um (some b) false btr).out.getD j 0
          = (b.buff.getD []).getD ((b.r + j) % b.size) 0) := by
  obtain ⟨hw, hr, hlen⟩ := hwf
  have hv' : BUF_IS_VALID um (some b) = true := hv
  have hs : 0 < b.size := valid_size_pos um b hv'
  obtain ⟨stor0, hstor⟩ := Option.isSome_iff_exists.mp (valid_buff_isSome um b hv')
  have hlen0 : stor0.length = b.size := by rw [hstor] at hlen; simpa using hlen
  have hFull : ringbuff_get_full um (some b) ≤ b.size - 1 := get_full_le um b hv hw hr
  set k := min btr (ringbuff_get_full um (some b)) with hkdef
  have hkle : k ≤ b.size - 1 := by omega
  by_cases hk0 : k = 0
  · have hres : ringbuff_read um (some b) false btr = ⟨0, some b, [], []⟩ :=
      ringbuff_read_eq_zero um b btr hv (by omega)
    rw [hres]
    refine ⟨by simp [hk0], fun _ => rfl, ?_, by simp [hk0], ?_⟩
    · rw [hk0, Nat.add_zero, Nat.mod_eq_of_lt hr]
    · intro j hj; omega
  · by_cases hA : k ≤ b.size - b.r
    · have hres := ringbuff_read_eq_nowrap um b stor0 btr k hv hstor hkdef
        (by omega) hA
      rw [hres]
      have hrmod : (if b.r + k ≥ b.size then 0 else b.r + k) = (b.r + k) % b.size := by
        rw [mod_two_cases (b.r + k) b.size (by omega)]
        split_ifs with h
        · omega
        · rfl
      refine ⟨rfl, fun h => absurd h hk0, by rw [← hrmod], memread_length stor0 b.r k, ?_⟩
      intro j hj
      rw [memread_getD stor0 b.r k j hj, hstor, Option.getD_some,
        Nat.mod_eq_of_lt (show b.r + j < b.size by omega)]
    · have hB : b.size - b.r < k := by omega
      have hres := ringbuff_read_eq_wrap um b stor0 btr k hv hstor hw hr hkdef hB
      rw [hres]
      have hrmod : k - (b.size - b.r) = (b.r + k) % b.size := by
        rw [mod_two_cases (b.r + k) b.size (by omega)]
        split_ifs with h <;> omega
      refine ⟨rfl, fun h => absurd h hk0, by rw [← hrmod], ?_, ?_⟩
      · rw [List.length_append, memread_length, memread_length]; omega
      · intro j hj
        rw [hstor, Option.getD_some]
        by_cases hjt : j < b.size - b.r
        · rw [List.getD_append _ _ _ _ (by rw [memread_length]; omega),
            memread_getD stor0 b.r (b.size - b.r) j hjt,
            Nat.mod_eq_of_lt (show b.r + j < b.size by omega)]
        · have hjlen : (memread stor0 b.r (b.size - b.r)).length ≤ j := by
            rw [memread_length]; omega
          rw [List.getD_append_right _ _ _ _ hjlen, memread_length,
            memread_getD stor0 0 (k - (b.size - b.r)) (j - (b.size - b.r)) (by omega),
            Nat.zero_add,
            mod_two_cases (b.r + j) b.size (by omega), if_pos (by omega)]
          congr 1
          omega

/-! ## Claim C3: the write/read round-trip law -/

/-- C3 fails as stated: on the ready well-formed buffer `cexBuf`, which
already holds one byte (value 10), writing the one-byte sequence `[20]`
(1 ≤ free_space() = 2) and immediately reading one byte returns the OLDEST
byte `[10]`, not the written sequence `[20]` — reads are FIFO, so the
round-trip law only holds when the buffer is empty before the write. -/
theorem ringbuff_c3_counterexample :
    ringbuff_ready false cexBuf ∧ ringbuff_wf cexBuf ∧
    1 ≤ ringbuff_get_free false (some cexBuf) ∧
    (ringbuff_read false ((ringbuff_write false (some cexBuf) (some [20]) 1).buf)
        false 1).out = [10] ∧
    (ringbuff_read false ((ringbuff_write false (some cexBuf) (some [20]) 1).buf)
        false 1).out ≠ [20] := by
  refine ⟨by decide, by decide, by decide, by decide, by decide⟩

/-- C3 (amended): for every ready well-formed buffer state that is EMPTY
(`used_space() = 0`, i.e. `w = r`) and every byte sequence of length at
least `L` with `1 ≤ L ≤ free_space()`, writing it and immediately reading
`L` bytes returns exactly `L` bytes equal to the written sequence, in
order, including when the copy wraps around the physical end. -/
theorem ringbuff_c3_amended (um : Bool) (b : ringbuff_t) (d : List Nat) (L : Nat)
    (hv : ringbuff_ready um b) (hwf : ringbuff_wf b) (hempty : b.w = b.r)
    (hL1 : 1 ≤ L) (hL2 : L ≤ ringbuff_get_free um (some b)) (hdL : L ≤ d.length) :
    (ringbuff_read um ((ringbuff_write um (some b) (some d) L).buf) false L).ret = L
    ∧ (ringbuff_read um ((ringbuff_write um (some b) (some d) L).buf) false L).out
        = d.take L := by
  obtain ⟨hw, hr, hlen⟩ := hwf
  have hv' : BUF_IS_VALID um (some b) = true := hv
  have hs : 0 < b.size := valid_size_pos um b hv'
  have hfree_eq : ringbuff_get_free um (some b) = b.size - 1 := by
    simp only [ringbuff_get_free, hv', if_true]
    rw [if_pos hempty]
  obtain ⟨_, _, stor2, hbuf, hlen2, hpoint, _⟩ :=
    write_characterization um b d L hv ⟨hw, hr, hlen⟩
  have hmin : min L (ringbuff_get_free um (some b)) = L := by omega
  rw [hmin] at hbuf hpoint
  rw [hbuf]
  set b1 : ringbuff_t := { b with buff := some stor2, w := (b.w + L) % b.size }
    with hb1
  have hv1 : ringbuff_ready um b1 := by
    unfold ringbuff_ready
    rw [BUF_IS_VALID_congr um b1 b rfl rfl ?_ rfl]
    · exact hv'
    · rw [valid_buff_isSome um b hv']; rfl
  have hwf1 : ringbuff_wf b1 := ⟨Nat.mod_lt _ hs, hr, hlen2⟩
  have hfull1 : ringbuff_get_full um (some b1) = L := by
    have hv1' : BUF_IS_VALID um (some b1) = true := hv1
    simp only [ringbuff_get_full, hv1', if_true]
    rw [mod_two_cases (b.w + L) b.size (by omega)]
    split_ifs <;> omega
  obtain ⟨hret, _, _, houtlen, hout⟩ := read_characterization um b1 L hv1 hwf1
  rw [hfull1, Nat.min_self] at hret houtlen hout
  refine ⟨hret, ?_⟩
  apply List.ext_getElem
  · rw [houtlen, List.length_take]; omega
  · intro n h1 h2
    have hn : n < L := by rw [houtlen] at h1; exact h1
    have h3 : n < d.length := by omega
    have hgoal := hout n hn
    rw [show b1.buff.getD [] = stor2 from rfl, show b1.r = b.r from rfl,
      show b1.size = b.size from rfl, ← hempty, hpoint n hn,
      List.getD_eq_getElem d 0 h3] at hgoal
    rw [List.getElem_take, ← List.getD_eq_getElem _ 0 h1]
    exact hgoal

theorem ringbuff_c3_witness :
    ringbuff_ready false wrapBuf ∧ ringbuff_wf wrapBuf ∧
    wrapBuf.w = wrapBuf.r ∧ 1 ≤ 2 ∧
    2 ≤ ringbuff_get_free false (some wrapBuf) ∧
    2 ≤ ([7, 8] : List Nat).length ∧
    (ringbuff_read false ((ringbuff_write false (some wrapBuf) (some [7, 8]) 2).buf)
        false 2).out = ([7, 8] : List Nat).take 2 :=
  ⟨by decide, by decide, by decide, by decide, by decide, by decide,
   (ringbuff_c3_amended false wrapBuf [7, 8] 2 (by decide) (by decide) (by decide)
     (by decide) (by decide) (by decide)).2⟩

/-! ## Case shapes of the accounting functions, skip and advance -/

theorem get_full_eq (um : Bool) (b : ringbuff_t) (hv : ringbuff_ready um b) :
    ringbuff_get_full um (some b) =
      if b.w = b.r then 0
      else if b.w > b.r then b.w - b.r
      else b.size - (b.r - b.w) := by
  have hv' : BUF_IS_VALID um (some b) = true := hv
  simp only [ringbuff_get_full, hv', if_true]

theorem get_free_eq (um : Bool) (b : ringbuff_t) (hv : ringbuff_ready um b) :
    ringbuff_get_free um (some b) =
      (if b.w = b.r then b.size
       else if b.r > b.w then b.r - b.w
       else b.size - (b.w - b.r)) - 1 := by
  have hv' : BUF_IS_VALID um (some b) = true := hv
  simp only [ringbuff_get_free, hv', if_true]

theorem get_full_set_r (um : Bool) (b : ringbuff_t) (x : Nat)
    (hv : ringbuff_ready um b) :
    ringbuff_get_full um (some { b with r := x }) =
      if b.w = x then 0 else if b.w > x then b.w - x else b.size - (x - b.w) := by
  have hv2 : BUF_IS_VALID um (some { b with r := x }) = true := by
    rw [BUF_IS_VALID_congr um { b with r := x } b rfl rfl rfl rfl]; exact hv
  rw [get_full_eq um _ hv2]

theorem ringbuff_skip_eq (um : Bool) (b : ringbuff_t) (len : Nat)
    (hv : ringbuff_ready um b) (hlen : len ≠ 0) :
    ringbuff_skip um (some b) len =
      ⟨BUF_MIN len (ringbuff_get_full um (some b)),
       some { b with r :=
         if b.r + BUF_MIN len (ringbuff_get_full um (some b)) ≥ b.size
         then b.r + BUF_MIN len (ringbuff_get_full um (some b)) - b.size
         else b.r + BUF_MIN len (ringbuff_get_full um (some b)) },
       BUF_SEND_EVT
         { b with r :=
           if b.r + BUF_MIN len (ringbuff_get_full um (some b)) ≥ b.size
           then b.r + BUF_MIN len (ringbuff_get_full um (some b)) - b.size
           else b.r + BUF_MIN len (ringbuff_get_full um (some b)) }
         RINGBUFF_EVT_READ (BUF_MIN len (ringbuff_get_full um (some b)))⟩ := by
  have hv' : BUF_IS_VALID um (some b) = true := hv
  simp only [ringbuff_skip]
  rw [if_neg (by simp [hv', hlen])]

theorem ringbuff_advance_eq (um : Bool) (b : ringbuff_t) (len : Nat)
    (hv : ringbuff_ready um b) (hlen : len ≠ 0) :
    ringbuff_advance um (some b) len =
      ⟨BUF_MIN len (ringbuff_get_free um (some b)),
       some { b with w :=
         if b.w + BUF_MIN len (ringbuff_get_free um (some b)) ≥ b.size
         then b.w + BUF_MIN len (ringbuff_get_free um (some b)) - b.size
         else b.w + BUF_MIN len (ringbuff_get_free um (some b)) },
       BUF_SEND_EVT
         { b with w :=
           if b.w + BUF_MIN len (ringbuff_get_free um (some b)) ≥ b.size
           then b.w + BUF_MIN len (ringbuff_get_free um (some b)) - b.size
           else b.w + BUF_MIN len (ringbuff_get_free um (some b)) }
         RINGBUFF_EVT_WRITE (BUF_MIN len (ringbuff_get_free um (some b)))⟩ := by
  have hv' : BUF_IS_VALID um (some b) = true := hv
  simp only [ringbuff_advance]
  rw [if_neg (by simp [hv', hlen])]

/-- On a ready well-formed state, `ringbuff_skip` returns the clamp
`min len full` and advances `r` by the clamp modulo `N`. -/
theorem skip_characterization (um : Bool) (b : ringbuff_t) (len : Nat)
    (hv : ringbuff_ready um b) (hwf : ringbuff_wf b) :
    (ringbuff_skip um (some b) len).ret = min len (ringbuff_get_full um (some b))
    ∧ (ringbuff_skip um (some b) len).buf
        = some { b with r := (b.r + min len (ringbuff_get_full um (some b))) % b.size } := by
  obtain ⟨hw, hr, _⟩ := hwf
  have hv' : BUF_IS_VALID um (some b) = true := hv
  have hs : 0 < b.size := valid_size_pos um b hv'
  have hFull := get_full_le um b hv hw hr
  by_cases hl : len = 0
  · subst hl
    have h0 : ringbuff_skip um (some b) 0 = ⟨0, some b, []⟩ := by
      simp [ringbuff_skip]
    rw [h0]
    refine ⟨by simp, ?_⟩
    rw [Nat.zero_min, Nat.add_zero, Nat.mod_eq_of_lt hr]
  · rw [ringbuff_skip_eq um b len hv hl]
    constructor
    · simp only [BUF_MIN_eq_min]
    · simp only [BUF_MIN_eq_min]
      rw [mod_two_cases (b.r + min len (ringbuff_get_full um (some b))) b.size
        (by omega)]

/-- On a ready well-formed state, `ringbuff_advance` returns the clamp
`min len free` and advances `w` by the clamp modulo `N`. -/
theorem advance_characterization (um : Bool) (b : ringbuff_t) (len : Nat)
    (hv : ringbuff_ready um b) (hwf : ringbuff_wf b) :
    (ringbuff_advance um (some b) len).ret = min len (ringbuff_get_free um (some b))
    ∧ (ringbuff_advance um (some b) len).buf
        = some { b with w := (b.w + min len (ringbuff_get_free um (some b))) % b.size } := by
  obtain ⟨hw, hr, _⟩ := hwf
  have hv' : BUF_IS_VALID um (some b) = true := hv
  have hs : 0 < b.size := valid_size_pos um b hv'
  have hFree := get_free_le um b hv hw hr
  by_cases hl : len = 0
  · subst hl
    have h0 : ringbuff_advance um (some b) 0 = ⟨0, some b, []⟩ := by
      simp [ringbuff_advance]
    rw [h0]
    refine ⟨by simp, ?_⟩
    rw [Nat.zero_min, Nat.add_zero, Nat.mod_eq_of_lt hw]
  · rw [ringbuff_advance_eq um b len hv hl]
    constructor
    · simp only [BUF_MIN_eq_min]
    · simp only [BUF_MIN_eq_min]
      rw [mod_two_cases (b.w + min len (ringbuff_get_free um (some b))) b.size
        (by omega)]

/-- The state produced by a successful `ringbuff_init` passes the validity
check. -/
theorem init_post_ready (um : Bool) (bd : List Nat) (sz : Nat) (hsz : sz ≠ 0) :
    BUF_IS_VALID um
      (some { buff := some bd, size := sz, r := 0, w := 0, evt_fn := false,
              magic1 := if um then RINGBUFF_MAGIC1 else 0,
              magic2 := if um then RINGBUFF_MAGIC2 else 0 }) = true := by
  cases um <;> simp [BUF_IS_VALID, Nat.pos_of_ne_zero hsz]

/-! ## Readiness of updated states -/

theorem ready_update (um : Bool) (b : ringbuff_t) (s2 : List Nat) (wv rv : Nat)
    (hv : ringbuff_ready um b) :
    ringbuff_ready um { b with buff := some s2, w := wv, r := rv } := by
  unfold ringbuff_ready at *
  rw [BUF_IS_VALID_congr um { b with buff := some s2, w := wv, r := rv } b
    rfl rfl ?_ rfl]
  · exact hv
  · rw [valid_buff_isSome um b hv]; rfl

theorem ready_update_idx (um : Bool) (b : ringbuff_t) (wv rv : Nat)
    (hv : ringbuff_ready um b) :
    ringbuff_ready um { b with w := wv, r := rv } := by
  unfold ringbuff_ready at *
  rw [BUF_IS_VALID_congr um { b with w := wv, r := rv } b rfl rfl rfl rfl]
  exact hv

/-! ## Claim C7: skip advances the read pointer by the clamped count -/

/-- C7: on every ready well-formed buffer and every `len`, `ringbuff_skip`
returns `min(len, used_space())`, advances `read_pos` by exactly that count
modulo `N`, modifies no stored byte and not the write pointer, and leaves
`used_space()` decreased by the count — so it never advances the read
pointer past the write pointer, even when `len > used_space()`. -/
theorem ringbuff_c7 (um : Bool) (b : ringbuff_t) (len : Nat)
    (hv : ringbuff_ready um b) (hwf : ringbuff_wf b) :
    (ringbuff_skip um (some b) len).ret = min len (ringbuff_get_full um (some b))
    ∧ (ringbuff_skip um (some b) len).buf
        = some { b with r := (b.r + min len (ringbuff_get_full um (some b))) % b.size }
    ∧ ({ b with r := (b.r + min len (ringbuff_get_full um (some b))) % b.size }
        : ringbuff_t).buff = b.buff
    ∧ ({ b with r := (b.r + min len (ringbuff_get_full um (some b))) % b.size }
        : ringbuff_t).w = b.w
    ∧ ringbuff_get_full um
        (some { b with r := (b.r + min len (ringbuff_get_full um (some b))) % b.size })
        = ringbuff_get_full um (some b) - min len (ringbuff_get_full um (some b)) := by
  obtain ⟨hc1, hc2⟩ := skip_characterization um b len hv hwf
  obtain ⟨hw, hr, _⟩ := hwf
  have hv' : BUF_IS_VALID um (some b) = true := hv
  have hs : 0 < b.size := valid_size_pos um b hv'
  have hFull := get_full_le um b hv hw hr
  refine ⟨hc1, hc2, rfl, rfl, ?_⟩
  rw [get_full_set_r um b ((b.r + min len (ringbuff_get_full um (some b))) % b.size) hv,
    mod_two_cases (b.r + min len (ringbuff_get_full um (some b))) b.size (by omega),
    get_full_eq um b hv]
  split_ifs <;> omega

theorem ringbuff_c7_witness :
    ringbuff_ready false cexBuf ∧ ringbuff_wf cexBuf ∧
    (ringbuff_skip false (some cexBuf) 5).ret
      = min 5 (ringbuff_get_full false (some cexBuf)) :=
  ⟨by decide, by decide, (ringbuff_c7 false cexBuf 5 (by decide) (by decide)).1⟩

/-! ## Claim C10: zero-count notifications of skip/advance vs write/read -/

/-- C10: on a ready buffer with a callback installed, `ringbuff_skip` with
`len > 0` on an empty buffer and `ringbuff_advance` with `len > 0` on a full
buffer return 0 yet still invoke the callback with count 0 (READ event for
skip, WRITE event for advance), whereas `ringbuff_write` and
`ringbuff_read`, when their request clamps to 0, return 0 without invoking
the callback at all. -/
theorem ringbuff_c10 (um : Bool) (b : ringbuff_t)
    (hv : ringbuff_ready um b) (hfn : b.evt_fn = true) :
    (∀ len, len ≠ 0 → ringbuff_get_full um (some b) = 0 →
      (ringbuff_skip um (some b) len).ret = 0
      ∧ (ringbuff_skip um (some b) len).evts = [(RINGBUFF_EVT_READ, 0)])
    ∧ (∀ len, len ≠ 0 → ringbuff_get_free um (some b) = 0 →
      (ringbuff_advance um (some b) len).ret = 0
      ∧ (ringbuff_advance um (some b) len).evts = [(RINGBUFF_EVT_WRITE, 0)])
    ∧ (∀ d btw, min btw (ringbuff_get_free um (some b)) = 0 →
      ringbuff_write um (some b) (some d) btw = ⟨0, some b, []⟩)
    ∧ (∀ btr, min btr (ringbuff_get_full um (some b)) = 0 →
      ringbuff_read um (some b) false btr = ⟨0, some b, [], []⟩) := by
  refine ⟨?_, ?_, ?_, ?_⟩
  · intro len hlen hfull
    rw [ringbuff_skip_eq um b len hv hlen, hfull,
      show BUF_MIN len 0 = 0 by rw [BUF_MIN_eq_min]; omega]
    exact ⟨rfl, by simp [BUF_SEND_EVT, hfn]⟩
  · intro len hlen hfree
    rw [ringbuff_advance_eq um b len hv hlen, hfree,
      show BUF_MIN len 0 = 0 by rw [BUF_MIN_eq_min]; omega]
    exact ⟨rfl, by simp [BUF_SEND_EVT, hfn]⟩
  · intro d btw h
    exact ringbuff_write_eq_zero um b d btw hv h
  · intro btr h
    exact ringbuff_read_eq_zero um b btr hv h

theorem ringbuff_c10_witness :
    ringbuff_ready false wrapBuf ∧ wrapBuf.evt_fn = true ∧ (3 : Nat) ≠ 0 ∧
    ringbuff_get_full false (some wrapBuf) = 0 ∧
    (ringbuff_skip false (some wrapBuf) 3).ret = 0 ∧
    (ringbuff_skip false (some wrapBuf) 3).evts = [(RINGBUFF_EVT_READ, 0)] := by
  refine ⟨by decide, by decide, by decide, by decide, ?_, ?_⟩
  · exact ((ringbuff_c10 false wrapBuf (by decide) (by decide)).1 3 (by decide)
      (by decide)).1
  · exact ((ringbuff_c10 false wrapBuf (by decide) (by decide)).1 3 (by decide)
      (by decide)).2

/-! ## Claim C5: the indices stay inside the capacity -/

/-- C5: on every ready well-formed buffer, after any single operation
(init, write, read, skip, advance, reset) both indices satisfy
`0 ≤ w < N` and `0 ≤ r < N`: write, skip and advance wrap an index that
reaches or exceeds `N` back into range. -/
theorem ringbuff_c5 (um : Bool) (b : ringbuff_t)
    (hv : ringbuff_ready um b) (hwf : ringbuff_wf b) :
    (∀ bd sz, sz ≠ 0 → ringbuff_idx_inv (ringbuff_init um (some b) (some bd) sz).2)
    ∧ (∀ d btw, ringbuff_idx_inv (ringbuff_write um (some b) (some d) btw).buf)
    ∧ (∀ btr, ringbuff_idx_inv (ringbuff_read um (some b) false btr).buf)
    ∧ (∀ len, ringbuff_idx_inv (ringbuff_skip um (some b) len).buf)
    ∧ (∀ len, ringbuff_idx_inv (ringbuff_advance um (some b) len).buf)
    ∧ ringbuff_idx_inv (ringbuff_reset um (some b)).1 := by
  obtain ⟨hw, hr, hlen⟩ := hwf
  have hv' : BUF_IS_VALID um (some b) = true := hv
  have hs : 0 < b.size := valid_size_pos um b hv'
  refine ⟨?_, ?_, ?_, ?_, ?_, ?_⟩
  · intro bd sz hsz bb hbb
    simp only [ringbuff_init] at hbb
    rw [if_neg (by simp [hsz])] at hbb
    have hbb2 : some { buff := some bd, size := sz, r := 0, w := 0,
                       evt_fn := false,
                       magic1 := if um then RINGBUFF_MAGIC1 else 0,
                       magic2 := if um then RINGBUFF_MAGIC2 else 0 }
        = some bb := hbb
    rw [Option.some.injEq] at hbb2
    subst hbb2
    exact ⟨Nat.pos_of_ne_zero hsz, Nat.pos_of_ne_zero hsz⟩
  · intro d btw bb hbb
    obtain ⟨_, _, stor2, hbuf, _, _, _⟩ :=
      write_characterization um b d btw hv ⟨hw, hr, hlen⟩
    rw [hbuf, Option.some.injEq] at hbb
    subst hbb
    exact ⟨Nat.mod_lt _ hs, hr⟩
  · intro btr bb hbb
    obtain ⟨_, _, hbuf, _, _⟩ := read_characterization um b btr hv ⟨hw, hr, hlen⟩
    rw [hbuf, Option.some.injEq] at hbb
    subst hbb
    exact ⟨hw, Nat.mod_lt _ hs⟩
  · intro len bb hbb
    obtain ⟨_, hbuf⟩ := skip_characterization um b len hv ⟨hw, hr, hlen⟩
    rw [hbuf, Option.some.injEq] at hbb
    subst hbb
    exact ⟨hw, Nat.mod_lt _ hs⟩
  · intro len bb hbb
    obtain ⟨_, hbuf⟩ := advance_characterization um b len hv ⟨hw, hr, hlen⟩
    rw [hbuf, Option.some.injEq] at hbb
    subst hbb
    exact ⟨Nat.mod_lt _ hs, hr⟩
  · intro bb hbb
    have hres : ringbuff_reset um (some b) =
        (some { b with w := 0, r := 0 },
         BUF_SEND_EVT { b with w := 0, r := 0 } RINGBUFF_EVT_RESET 0) := by
      simp only [ringbuff_reset]
      rw [if_pos hv']
    rw [hres] at hbb
    have hbb2 : some { b with w := 0, r := 0 } = some bb := hbb
    rw [Option.some.injEq] at hbb2
    subst hbb2
    exact ⟨hs, hs⟩

theorem ringbuff_c5_witness :
    ringbuff_ready false testBuf ∧ ringbuff_wf testBuf ∧
    ringbuff_idx_inv (ringbuff_write false (some testBuf) (some [9]) 1).buf :=
  ⟨by decide, by decide,
   (ringbuff_c5 false testBuf (by decide) (by decide)).2.1 [9] 1⟩

/-! ## Claim C1: used + free = N - 1, before and after every operation -/

/-- C1: on every ready well-formed buffer state,
`ringbuff_get_free + ringbuff_get_full = N - 1`, and the same equation holds
for the state produced by each operation: init, write, read, skip, advance
and reset. -/
theorem ringbuff_c1 (um : Bool) (b : ringbuff_t)
    (hv : ringbuff_ready um b) (hwf : ringbuff_wf b) :
    ringbuff_get_free um (some b) + ringbuff_get_full um (some b) = b.size - 1
    ∧ (∀ bd sz, sz ≠ 0 → ringbuff_sum_inv um (ringbuff_init um (some b) (some bd) sz).2)
    ∧ (∀ d btw, ringbuff_sum_inv um (ringbuff_write um (some b) (some d) btw).buf)
    ∧ (∀ btr, ringbuff_sum_inv um (ringbuff_read um (some b) false btr).buf)
    ∧ (∀ len, ringbuff_sum_inv um (ringbuff_skip um (some b) len).buf)
    ∧ (∀ len, ringbuff_sum_inv um (ringbuff_advance um (some b) len).buf)
    ∧ ringbuff_sum_inv um (ringbuff_reset um (some b)).1 := by
  obtain ⟨hw, hr, hlen⟩ := hwf
  have hv' : BUF_IS_VALID um (some b) = true := hv
  have hs : 0 < b.size := valid_size_pos um b hv'
  refine ⟨free_add_full um b hv hw hr, ?_, ?_, ?_, ?_, ?_, ?_⟩
  · intro bd sz hsz bb hbb
    simp only [ringbuff_init] at hbb
    rw [if_neg (by simp [hsz])] at hbb
    have hbb2 : some { buff := some bd, size := sz, r := 0, w := 0,
                       evt_fn := false,
                       magic1 := if um then RINGBUFF_MAGIC1 else 0,
                       magic2 := if um then RINGBUFF_MAGIC2 else 0 }
        = some bb := hbb
    rw [Option.some.injEq] at hbb2
    subst hbb2
    exact free_add_full um _ (init_post_ready um bd sz hsz)
      (Nat.pos_of_ne_zero hsz) (Nat.pos_of_ne_zero hsz)
  · intro d btw bb hbb
    obtain ⟨_, _, stor2, hbuf, _, _, _⟩ :=
      write_characterization um b d btw hv ⟨hw, hr, hlen⟩
    rw [hbuf, Option.some.injEq] at hbb
    subst hbb
    exact free_add_full um _
      (ready_update um b stor2 _ b.r hv) (Nat.mod_lt _ hs) hr
  · intro btr bb hbb
    obtain ⟨_, _, hbuf, _, _⟩ := read_characterization um b btr hv ⟨hw, hr, hlen⟩
    rw [hbuf, Option.some.injEq] at hbb
    subst hbb
    exact free_add_full um _
      (ready_update_idx um b b.w _ hv) hw (Nat.mod_lt _ hs)
  · intro len bb hbb
    obtain ⟨_, hbuf⟩ := skip_characterization um b len hv ⟨hw, hr, hlen⟩
    rw [hbuf, Option.some.injEq] at hbb
    subst hbb
    exact free_add_full um _
      (ready_update_idx um b b.w _ hv) hw (Nat.mod_lt _ hs)
  · intro len bb hbb
    obtain ⟨_, hbuf⟩ := advance_characterization um b len hv ⟨hw, hr, hlen⟩
    rw [hbuf, Option.some.injEq] at hbb
    subst hbb
    exact free_add_full um _
      (ready_update_idx um b _ b.r hv) (Nat.mod_lt _ hs) hr
  · intro bb hbb
    have hres : ringbuff_reset um (some b) =
        (some { b with w := 0, r := 0 },
         BUF_SEND_EVT { b with w := 0, r := 0 } RINGBUFF_EVT_RESET 0) := by
      simp only [ringbuff_reset]
      rw [if_pos hv']
    rw [hres] at hbb
    have hbb2 : some { b with w := 0, r := 0 } = some bb := hbb
    rw [Option.some.injEq] at hbb2
    subst hbb2
    exact free_add_full um _ (ready_update_idx um b 0 0 hv) hs hs

theorem ringbuff_c1_witness :
    ringbuff_ready false testBuf ∧ ringbuff_wf testBuf ∧
    ringbuff_get_free false (some testBuf) + ringbuff_get_full false (some testBuf)
      = testBuf.size - 1 :=
  ⟨by decide, by decide, (ringbuff_c1 false testBuf (by decide) (by decide)).1⟩

/-! ## Claim C8: peek is purely observational -/

/-- C8: on every ready well-formed buffer state, `ringbuff_peek` never
mutates the buffer (the state it leaves behind is the input state, so
`read_pos`, `write_pos`, `used_space()` and `free_space()` are unchanged)
and emits no notification; it returns 0 with no bytes whenever
`skip_count ≥ used_space()`; and for `skip_count = 0` the bytes it copies
out equal the bytes a subsequent `ringbuff_read` of the same length
returns. -/
theorem ringbuff_c8 (um : Bool) (b : ringbuff_t) (sk btp : Nat)
    (hv : ringbuff_ready um b) (hwf : ringbuff_wf b) :
    (ringbuff_peek um (some b) sk false btp).buf = some b
    ∧ (ringbuff_peek um (some b) sk false btp).evts = []
    ∧ (sk ≥ ringbuff_get_full um (some b) →
        (ringbuff_peek um (some b) sk false btp).ret = 0
        ∧ (ringbuff_peek um (some b) sk false btp).out = [])
    ∧ (∀ len, (ringbuff_peek um (some b) 0 false len).out
        = (ringbuff_read um (some b) false len).out) := by
  obtain ⟨hw, hr, hlen⟩ := hwf
  have hv' : BUF_IS_VALID um (some b) = true := hv
  have hs : 0 < b.size := valid_size_pos um b hv'
  refine ⟨?_, ?_, ?_, ?_⟩
  · simp only [ringbuff_peek]
    split_ifs <;> rfl
  · simp only [ringbuff_peek]
    split_ifs <;> rfl
  · intro hsk
    by_cases hbtp : btp = 0
    · subst hbtp
      simp [ringbuff_peek]
    · have h1 : ringbuff_peek um (some b) sk false btp = ⟨0, some b, [], []⟩ := by
        simp only [ringbuff_peek]
        rw [if_neg (by simp [hv', hbtp]), if_pos hsk]
      rw [h1]
      exact ⟨rfl, rfl⟩
  · intro len
    by_cases hlen0 : len = 0
    · subst hlen0
      simp [ringbuff_peek, ringbuff_read]
    · by_cases hfull : ringbuff_get_full um (some b) = 0
      · have h1 : ringbuff_peek um (some b) 0 false len = ⟨0, some b, [], []⟩ := by
          simp only [ringbuff_peek]
          rw [if_neg (by simp [hv', hlen0]), if_pos (by omega)]
        rw [h1, ringbuff_read_eq_zero um b len hv (by omega)]
      · have hknz : ¬ (BUF_MIN (ringbuff_get_full um (some b)) len = 0) := by
          rw [BUF_MIN_eq_min]; omega
        simp only [ringbuff_peek, ringbuff_read]
        rw [if_neg
          (show ¬ (BUF_IS_VALID um (some b) = false ∨ false = true ∨ len = 0) by
            simp [hv', hlen0])]
        rw [if_neg (show ¬ 0 ≥ ringbuff_get_full um (some b) by omega)]
        rw [if_neg
          (show ¬ (BUF_IS_VALID um (some b) = false ∨ false = true ∨ len = 0) by
            simp [hv', hlen0])]
        rw [Nat.add_zero, Nat.sub_zero]
        rw [if_neg (show ¬ b.r ≥ b.size by omega)]
        rw [if_neg hknz, if_neg hknz]

theorem ringbuff_c8_witness :
    ringbuff_ready false cexBuf ∧ ringbuff_wf cexBuf ∧
    (ringbuff_peek false (some cexBuf) 0 false 1).out
      = (ringbuff_read false (some cexBuf) false 1).out :=
  ⟨by decide, by decide,
   (ringbuff_c8 false cexBuf 0 1 (by decide) (by decide)).2.2.2 1⟩
